import Mathlib

/-
  Verification of the tournament engine of the Jordy C BBQ Cup app
  (src/App.jsx).  The pure engine functions are shallowly embedded:

  * JS numbers that hold scores are modelled as `Int`; absent scores
    (`undefined`) as `Option Int`.
  * Player ids are opaque strings.  The random `uid()` generator for match
    ids is modelled as a deterministic fresh-`Nat` supply threaded through
    the state, which only matters for the update-by-id logic.
  * The error strings of the validator are modelled as an enumeration,
    one constructor per distinct message.
  * JS `>` on possibly-undefined numbers is `jsGT`: comparisons involving
    `undefined` are false.
-/

namespace Cornhole

/-- Stage of the tournament, `stage ∈ {setup, groups, knockout, champion}`. -/
inductive Stage where
  | setup
  | groups
  | knockout
  | champion
deriving DecidableEq, Repr

/-- Player record `{id, name, seed}` from App.jsx. -/
structure Player where
  id : String
  name : String
  seed : Nat
deriving DecidableEq, Repr

/-- Match record `{id, a, b, scoreA?, scoreB?, completed?}` from App.jsx.
    The random string `uid()` is modelled as a deterministic `Nat`. -/
structure Match where
  id : Nat
  a : String
  b : String
  scoreA : Option Int := none
  scoreB : Option Int := none
  completed : Bool := false
deriving DecidableEq, Repr

instance : Inhabited Match := ⟨{ id := 0, a := "", b := "" }⟩

/-- Group record `{name, players, matches}` from App.jsx. -/
structure Group where
  name : String
  players : List String
  «matches» : List Match
deriving DecidableEq, Repr

/-- The id -> Player lookup (`playersIndex`) passed around by the app. -/
def PIndex := String → Option Player

/-- JS `x > y` where either side may be `undefined`: any comparison with
    `undefined` is false. -/
def jsGT : Option Int → Option Int → Bool
  | some x, some y => decide (y < x)
  | _, _ => false

/-- The distinct error messages of `validateCornholeScore`, one constructor
    per string produced by the source. -/
inductive ScoreError where
  /-- Message "Enter both scores". -/
  | missingScore
  /-- Message "No draws in cornhole". -/
  | drawNotAllowed
  /-- Message "Winner must have exactly target". -/
  | winnerScoreMismatch
  /-- Message "Loser must be below target". -/
  | loserScoreTooHigh
deriving DecidableEq, Repr

/-- `validateCornholeScore(sa, sb, target)` from App.jsx: null (valid) or an
    error message. -/
def validateCornholeScore (sa sb : Option Int) (target : Int) : Option ScoreError :=
  match sa, sb with
  | none, _ => some ScoreError.missingScore
  | some _, none => some ScoreError.missingScore
  | some a, some b =>
    if a = b then some ScoreError.drawNotAllowed
    else if max a b ≠ target then some ScoreError.winnerScoreMismatch
    else if min a b ≥ target then some ScoreError.loserScoreTooHigh
    else none

/-- Claim C1: the validator accepts exactly the pairs of present, unequal
    scores whose maximum is the target and whose minimum is below it. -/
theorem validate_none_iff (sa sb : Option Int) (t : Int) :
    validateCornholeScore sa sb t = none ↔
      ∃ x y : Int, sa = some x ∧ sb = some y ∧ x ≠ y ∧ max x y = t ∧ min x y < t := by
  cases sa with
  | none => simp [validateCornholeScore]
  | some x =>
    cases sb with
    | none => simp [validateCornholeScore]
    | some y =>
      simp only [validateCornholeScore, Option.some.injEq]
      constructor
      · intro h
        by_cases hxy : x = y
        · simp [hxy] at h
        · by_cases hmax : max x y = t
          · refine ⟨x, y, rfl, rfl, hxy, hmax, ?_⟩
            rcases max_cases x y with ⟨h1, _⟩ | ⟨h1, _⟩ <;>
              rcases min_cases x y with ⟨h2, _⟩ | ⟨h2, _⟩ <;> omega
          · simp [hxy, hmax] at h
      · rintro ⟨x', y', hx, hy, hxy, hmax, hmin⟩
        cases hx; cases hy
        simp [hxy, hmax]
        omega

/-- Claim C10: the "Loser must be below target" branch of the validator is
    unreachable: no input makes it return that error. -/
theorem validate_never_loserScoreTooHigh (sa sb : Option Int) (t : Int) :
    validateCornholeScore sa sb t ≠ some ScoreError.loserScoreTooHigh := by
  cases sa with
  | none => simp [validateCornholeScore]
  | some x =>
    cases sb with
    | none => simp [validateCornholeScore]
    | some y =>
      simp only [validateCornholeScore]
      by_cases hxy : x = y
      · simp [hxy]
      · by_cases hmax : max x y = t
        · have hmin : ¬ min x y ≥ t := by
            rcases max_cases x y with ⟨h1, _⟩ | ⟨h1, _⟩ <;>
              rcases min_cases x y with ⟨h2, _⟩ | ⟨h2, _⟩ <;> omega
          simp [hxy, hmax, hmin]
        · simp [hxy, hmax]

/-- `scheduleRoundRobin4(ids)` from App.jsx: the six fixed round-robin
    matches of a 4-player group.  `fresh` is the deterministic id supply
    standing in for `uid()`.  A list that does not hold at least four ids
    would make the JS version build matches with undefined participants;
    this model returns `[]` there, and every theorem below is stated for
    length-4 inputs only. -/
def scheduleRoundRobin4 (fresh : Nat) (ids : List String) : List Match :=
  match ids with
  | A :: B :: C :: D :: _ =>
    [ { id := fresh, a := A, b := B },
      { id := fresh + 1, a := A, b := C },
      { id := fresh + 2, a := A, b := D },
      { id := fresh + 3, a := B, b := C },
      { id := fresh + 4, a := B, b := D },
      { id := fresh + 5, a := C, b := D } ]
  | _ => []

/-- Claim C8: for a list of 4 distinct ids the scheduler emits exactly 6
    matches in the fixed order (1v2, 1v3, 1v4, 2v3, 2v4, 3v4), all
    incomplete with no scores, and the unordered pairs are exactly the six
    2-combinations, each exactly once. -/
theorem scheduleRoundRobin4_spec (fresh : Nat) (A B C D : String)
    (hnd : ([A, B, C, D] : List String).Nodup) :
    (scheduleRoundRobin4 fresh [A, B, C, D]).length = 6 ∧
    (scheduleRoundRobin4 fresh [A, B, C, D]).map (fun m => (m.a, m.b)) =
      [(A, B), (A, C), (A, D), (B, C), (B, D), (C, D)] ∧
    (∀ m ∈ scheduleRoundRobin4 fresh [A, B, C, D],
      m.scoreA = none ∧ m.scoreB = none ∧ m.completed = false) ∧
    (∀ x y : String, x ∈ [A, B, C, D] → y ∈ [A, B, C, D] → x ≠ y →
      (scheduleRoundRobin4 fresh [A, B, C, D]).countP
        (fun m => decide ((m.a = x ∧ m.b = y) ∨ (m.a = y ∧ m.b = x))) = 1) := by
  simp only [List.nodup_cons, List.mem_cons, List.not_mem_nil, or_false,
    List.nodup_nil, and_true, not_or] at hnd
  obtain ⟨⟨hAB, hAC, hAD⟩, ⟨hBC, hBD⟩, hCD⟩ := hnd
  refine ⟨rfl, rfl, ?_, ?_⟩
  · intro m hm
    simp only [scheduleRoundRobin4, List.mem_cons, List.not_mem_nil, or_false] at hm
    rcases hm with rfl | rfl | rfl | rfl | rfl | rfl <;> exact ⟨rfl, rfl, rfl⟩
  · intro x y hx hy hxy
    simp only [List.mem_cons, List.not_mem_nil, or_false] at hx hy
    rcases hx with rfl | rfl | rfl | rfl <;> rcases hy with rfl | rfl | rfl | rfl <;>
      simp_all [scheduleRoundRobin4, List.countP_cons, eq_comm]

/-- Concrete witness for `scheduleRoundRobin4_spec` at ids a, b, c, d. -/
theorem scheduleRoundRobin4_spec_witness :
    (([("a" : String), "b", "c", "d"]).Nodup) ∧
    ((scheduleRoundRobin4 0 ["a", "b", "c", "d"]).length = 6 ∧
    (scheduleRoundRobin4 0 ["a", "b", "c", "d"]).map (fun m => (m.a, m.b)) =
      [("a", "b"), ("a", "c"), ("a", "d"), ("b", "c"), ("b", "d"), ("c", "d")] ∧
    (∀ m ∈ scheduleRoundRobin4 0 ["a", "b", "c", "d"],
      m.scoreA = none ∧ m.scoreB = none ∧ m.completed = false) ∧
    (∀ x y : String, x ∈ ["a", "b", "c", "d"] → y ∈ ["a", "b", "c", "d"] → x ≠ y →
      (scheduleRoundRobin4 0 ["a", "b", "c", "d"]).countP
        (fun m => decide ((m.a = x ∧ m.b = y) ∨ (m.a = y ∧ m.b = x))) = 1)) :=
  ⟨by decide, scheduleRoundRobin4_spec 0 "a" "b" "c" "d" (by decide)⟩

/-- Row of the standings table, `{id, name, P, W, L, PF, PA, PD, Pts}`. -/
structure Row where
  id : String
  name : String
  P : Int
  W : Int
  L : Int
  PF : Int
  PA : Int
  PD : Int
  Pts : Int
deriving DecidableEq, Repr

/-- Resolution of the displayed name, `playersIndex[pid]?.name || "?"`:
    a missing player or an empty (JS-falsy) name yields "?". -/
def jsName (p : Option Player) : String :=
  match p with
  | some p => if p.name = "" then "?" else p.name
  | none => "?"

/-- Fresh all-zero row for one group player, as built by `computeStandings`. -/
def initRow (idx : PIndex) (pid : String) : Row :=
  { id := pid, name := jsName (idx pid),
    P := 0, W := 0, L := 0, PF := 0, PA := 0, PD := 0, Pts := 0 }

/-- Per-row effect of one match of the accumulation loop of
    `computeStandings`.  The source mutates the two row objects found in an
    id-keyed dictionary; here every row receives the update addressed to its
    own id, which coincides with the source when the group's player ids are
    distinct and each match's two participants are distinct group members
    (hypotheses of the theorems below).  A completed match with a missing
    score would make the JS version accumulate NaN, so scores are read with
    a default that the theorems' well-formedness hypotheses make irrelevant;
    win attribution `scoreA > scoreB` is the exact JS comparison `jsGT`. -/
def stepRow (m : Match) (r : Row) : Row :=
  if m.completed = true then
    if r.id = m.a then
      { r with
        P := r.P + 1,
        PF := r.PF + (m.scoreA.getD 0),
        PA := r.PA + (m.scoreB.getD 0),
        PD := (r.PF + (m.scoreA.getD 0)) - (r.PA + (m.scoreB.getD 0)),
        W := r.W + (if jsGT m.scoreA m.scoreB then 1 else 0),
        L := r.L + (if jsGT m.scoreA m.scoreB then 0 else 1),
        Pts := r.Pts + (if jsGT m.scoreA m.scoreB then 3 else 0) }
    else if r.id = m.b then
      { r with
        P := r.P + 1,
        PF := r.PF + (m.scoreB.getD 0),
        PA := r.PA + (m.scoreA.getD 0),
        PD := (r.PF + (m.scoreB.getD 0)) - (r.PA + (m.scoreA.getD 0)),
        W := r.W + (if jsGT m.scoreA m.scoreB then 0 else 1),
        L := r.L + (if jsGT m.scoreA m.scoreB then 1 else 0),
        Pts := r.Pts + (if jsGT m.scoreA m.scoreB then 0 else 3) }
    else r
  else r

/-- Sign of `x.name.localeCompare(y.name)`, modelled as codepoint order. -/
def nameCmp (x y : String) : Int :=
  if x < y then -1 else if y < x then 1 else 0

/-- The sort comparator of `computeStandings`:
    `y.Pts - x.Pts || y.PD - x.PD || y.PF - x.PF || x.name.localeCompare(y.name)`
    (a JS `||` chain falls through on 0). -/
def standingsCmp (x y : Row) : Int :=
  if y.Pts - x.Pts ≠ 0 then y.Pts - x.Pts
  else if y.PD - x.PD ≠ 0 then y.PD - x.PD
  else if y.PF - x.PF ≠ 0 then y.PF - x.PF
  else nameCmp x.name y.name

/-- Boolean "x sorts no later than y" for the comparator above; a stable JS
    sort by `standingsCmp` is a stable merge sort by this relation. -/
def standingsLE (x y : Row) : Bool :=
  decide (standingsCmp x y ≤ 0)

/-- `computeStandings(group, playersIndex)` from App.jsx: one all-zero row
    per group player, the accumulation loop over the group's matches, then
    the comparator sort. -/
def computeStandings (g : Group) (idx : PIndex) : List Row :=
  let table := g.players.map (initRow idx)
  let filled := g.«matches».foldl (fun rows m => rows.map (stepRow m)) table
  filled.mergeSort standingsLE

/-- Specification-side winner of a match: the participant with the higher
    score (reading a missing score as 0; the claims only use it on matches
    whose scores are present and unequal). -/
def specWinner (m : Match) : String :=
  if m.scoreB.getD 0 < m.scoreA.getD 0 then m.a else m.b

/-- Specification-side play count: each completed match a player appears in
    increments P by one. -/
def specP (p : String) : List Match → Int
  | [] => 0
  | m :: ms =>
    (if m.completed = true ∧ (m.a = p ∨ m.b = p) then 1 else 0) + specP p ms

/-- Specification-side win count: each completed match whose higher scorer
    is the player increments W by one. -/
def specW (p : String) : List Match → Int
  | [] => 0
  | m :: ms =>
    (if m.completed = true ∧ specWinner m = p then 1 else 0) + specW p ms

/-- Specification-side loss count: each completed match the player appears
    in without being its higher scorer increments L by one. -/
def specL (p : String) : List Match → Int
  | [] => 0
  | m :: ms =>
    (if m.completed = true ∧ (m.a = p ∨ m.b = p) ∧ specWinner m ≠ p then 1 else 0) +
      specL p ms

/-- Specification-side points-for: own score accumulated over completed
    matches the player appears in. -/
def specPF (p : String) : List Match → Int
  | [] => 0
  | m :: ms =>
    (if m.completed = true ∧ m.a = p then m.scoreA.getD 0
     else if m.completed = true ∧ m.b = p then m.scoreB.getD 0 else 0) + specPF p ms

/-- Specification-side points-against: opponent's score accumulated over
    completed matches the player appears in. -/
def specPA (p : String) : List Match → Int
  | [] => 0
  | m :: ms =>
    (if m.completed = true ∧ m.a = p then m.scoreB.getD 0
     else if m.completed = true ∧ m.b = p then m.scoreA.getD 0 else 0) + specPA p ms

/-- Specification-side sort order of the standings table: points descending,
    then point difference descending, then points-for descending, then name
    ascending. -/
def specLE (x y : Row) : Prop :=
  y.Pts < x.Pts ∨ (x.Pts = y.Pts ∧
    (y.PD < x.PD ∨ (x.PD = y.PD ∧
      (y.PF < x.PF ∨ (x.PF = y.PF ∧ x.name ≤ y.name)))))

/-- The comparator-derived order coincides with its specification reading. -/
theorem standingsLE_iff_specLE (x y : Row) : standingsLE x y = true ↔ specLE x y := by
  simp only [standingsLE, standingsCmp, nameCmp, specLE, decide_eq_true_eq]
  by_cases h1 : y.Pts - x.Pts ≠ 0
  · simp only [if_pos h1]; omega
  · simp only [if_neg h1]
    by_cases h2 : y.PD - x.PD ≠ 0
    · simp only [if_pos h2]; omega
    · simp only [if_neg h2]
      by_cases h3 : y.PF - x.PF ≠ 0
      · simp only [if_pos h3]; omega
      · simp only [if_neg h3]
        by_cases h4 : x.name < y.name
        · simp only [if_pos h4]
          constructor
          · intro _; right; exact ⟨by omega, Or.inr ⟨by omega, Or.inr ⟨by omega, le_of_lt h4⟩⟩⟩
          · intro _; omega
        · simp only [if_neg h4]
          by_cases h5 : y.name < x.name
          · simp only [if_pos h5]
            constructor
            · intro h; omega
            · rintro (h | ⟨_, h | ⟨_, h | ⟨_, h⟩⟩⟩) <;> first | omega | exact absurd h (not_le_of_lt h5)
          · simp only [if_neg h5]
            have hname : x.name ≤ y.name := le_of_not_lt h5
            constructor
            · intro _; right; exact ⟨by omega, Or.inr ⟨by omega, Or.inr ⟨by omega, hname⟩⟩⟩
            · intro _; omega

/-- The comparator-derived order is total. -/
theorem standingsLE_total (x y : Row) : standingsLE x y || standingsLE y x := by
  simp only [Bool.or_eq_true, standingsLE_iff_specLE, specLE]
  rcases lt_trichotomy y.Pts x.Pts with h1 | h1 | h1
  · exact Or.inl (Or.inl h1)
  · rcases lt_trichotomy y.PD x.PD with h2 | h2 | h2
    · exact Or.inl (Or.inr ⟨h1.symm, Or.inl h2⟩)
    · rcases lt_trichotomy y.PF x.PF with h3 | h3 | h3
      · exact Or.inl (Or.inr ⟨h1.symm, Or.inr ⟨h2.symm, Or.inl h3⟩⟩)
      · rcases le_total x.name y.name with h4 | h4
        · exact Or.inl (Or.inr ⟨h1.symm, Or.inr ⟨h2.symm, Or.inr ⟨h3.symm, h4⟩⟩⟩)
        · exact Or.inr (Or.inr ⟨h1, Or.inr ⟨h2, Or.inr ⟨h3, h4⟩⟩⟩)
      · exact Or.inr (Or.inr ⟨h1, Or.inr ⟨h2, Or.inl h3⟩⟩)
    · exact Or.inr (Or.inr ⟨h1, Or.inl h2⟩)
  · exact Or.inr (Or.inl h1)

/-- The comparator-derived order is transitive. -/
theorem standingsLE_trans (x y z : Row) :
    standingsLE x y → standingsLE y z → standingsLE x z := by
  simp only [standingsLE_iff_specLE, specLE]
  rintro (h | ⟨e1, h | ⟨e2, h | ⟨e3, h⟩⟩⟩) (k | ⟨f1, k | ⟨f2, k | ⟨f3, k⟩⟩⟩) <;>
    first
      | (left; omega)
      | (right; refine ⟨by omega, ?_⟩; left; omega)
      | (right; refine ⟨by omega, ?_⟩; right; refine ⟨by omega, ?_⟩; left; omega)
      | (right; refine ⟨by omega, ?_⟩; right; refine ⟨by omega, ?_⟩; right;
         exact ⟨by omega, le_trans h k⟩)

/-- Field-by-field effect of one accumulation step on one row. -/
theorem stepRow_fields (m : Match) (r : Row)
    (hwf : m.completed = true →
      m.a ≠ m.b ∧ m.scoreA.isSome = true ∧ m.scoreB.isSome = true) :
    (stepRow m r).id = r.id ∧ (stepRow m r).name = r.name ∧
    (stepRow m r).P = r.P +
      (if m.completed = true ∧ (m.a = r.id ∨ m.b = r.id) then 1 else 0) ∧
    (stepRow m r).W = r.W +
      (if m.completed = true ∧ specWinner m = r.id then 1 else 0) ∧
    (stepRow m r).L = r.L +
      (if m.completed = true ∧ (m.a = r.id ∨ m.b = r.id) ∧ specWinner m ≠ r.id
       then 1 else 0) ∧
    (stepRow m r).PF = r.PF +
      (if m.completed = true ∧ m.a = r.id then m.scoreA.getD 0
       else if m.completed = true ∧ m.b = r.id then m.scoreB.getD 0 else 0) ∧
    (stepRow m r).PA = r.PA +
      (if m.completed = true ∧ m.a = r.id then m.scoreB.getD 0
       else if m.completed = true ∧ m.b = r.id then m.scoreA.getD 0 else 0) ∧
    (stepRow m r).Pts = r.Pts +
      3 * (if m.completed = true ∧ specWinner m = r.id then 1 else 0) ∧
    (r.PD = r.PF - r.PA → (stepRow m r).PD = (stepRow m r).PF - (stepRow m r).PA) := by
  by_cases hc : m.completed = true
  · obtain ⟨hab, hsa, hsb⟩ := hwf hc
    obtain ⟨x, hx⟩ := Option.isSome_iff_exists.mp hsa
    obtain ⟨y, hy⟩ := Option.isSome_iff_exists.mp hsb
    have hba : m.b ≠ m.a := Ne.symm hab
    by_cases hA : r.id = m.a
    · have hnB : ¬ r.id = m.b := fun h => hab (hA.symm.trans h)
      by_cases hyx : y < x <;>
        simp [stepRow, specWinner, jsGT, hc, hA, hnB, hab, hba, hx, hy, hyx]
    · by_cases hB : r.id = m.b
      · have hnA : ¬ m.a = r.id := fun h => hA h.symm
        by_cases hyx : y < x <;>
          simp [stepRow, specWinner, jsGT, hc, hA, hB, hnA, hab, hba, hx, hy, hyx]
      · have hnA : ¬ m.a = r.id := fun h => hA h.symm
        have hnB : ¬ m.b = r.id := fun h => hB h.symm
        by_cases hyx : y < x <;>
          simp [stepRow, specWinner, hc, hA, hB, hnA, hnB, hx, hy, hyx]
  · simp [stepRow, hc]

/-- The map-over-rows accumulation loop commutes into one fold per row. -/
theorem foldl_map_stepRow (ms : List Match) : ∀ rows : List Row,
    ms.foldl (fun rows m => rows.map (stepRow m)) rows =
      rows.map (fun r => ms.foldl (fun acc m => stepRow m acc) r) := by
  induction ms with
  | nil => intro rows; simp
  | cons m rest ih =>
    intro rows
    rw [List.foldl_cons, ih (rows.map (stepRow m)), List.map_map]
    rfl

/-- Folding the accumulation over a well-formed match list turns a row into
    its specification-side statistics. -/
theorem foldStep_spec (ms : List Match) : ∀ r : Row,
    (∀ m ∈ ms, m.completed = true →
      m.a ≠ m.b ∧ m.scoreA.isSome = true ∧ m.scoreB.isSome = true) →
    (ms.foldl (fun acc m => stepRow m acc) r).id = r.id ∧
    (ms.foldl (fun acc m => stepRow m acc) r).name = r.name ∧
    (ms.foldl (fun acc m => stepRow m acc) r).P = r.P + specP r.id ms ∧
    (ms.foldl (fun acc m => stepRow m acc) r).W = r.W + specW r.id ms ∧
    (ms.foldl (fun acc m => stepRow m acc) r).L = r.L + specL r.id ms ∧
    (ms.foldl (fun acc m => stepRow m acc) r).PF = r.PF + specPF r.id ms ∧
    (ms.foldl (fun acc m => stepRow m acc) r).PA = r.PA + specPA r.id ms ∧
    (ms.foldl (fun acc m => stepRow m acc) r).Pts = r.Pts + 3 * specW r.id ms ∧
    (r.PD = r.PF - r.PA →
      (ms.foldl (fun acc m => stepRow m acc) r).PD =
        (ms.foldl (fun acc m => stepRow m acc) r).PF -
        (ms.foldl (fun acc m => stepRow m acc) r).PA) := by
  induction ms with
  | nil =>
    intro r _
    simp [specP, specW, specL, specPF, specPA]
  | cons m rest ih =>
    intro r hwf
    have hm := hwf m (List.mem_cons_self m rest)
    have hrest := fun m' h => hwf m' (List.mem_cons_of_mem m h)
    obtain ⟨hid, hname, hP, hW, hL, hPF, hPA, hPts, hPD⟩ := stepRow_fields m r hm
    obtain ⟨iid, iname, iP, iW, iL, iPF, iPA, iPts, iPD⟩ := ih (stepRow m r) hrest
    rw [hid] at iP iW iL iPF iPA iPts
    rw [List.foldl_cons]
    simp only [specP, specW, specL, specPF, specPA]
    refine ⟨iid.trans hid, iname.trans hname, ?_, ?_, ?_, ?_, ?_, ?_, ?_⟩
    · rw [iP, hP]; ring
    · rw [iW, hW]; ring
    · rw [iL, hL]; ring
    · rw [iPF, hPF]; ring
    · rw [iPA, hPA]; ring
    · rw [iPts, hPts]; ring
    · intro h0; exact iPD (hPD h0)

/-- Claim C4: the standings table has one row per group player; each row's
    statistics are exactly the specification accumulation over the completed
    matches (with `PD = PF - PA` and `Pts = 3*W`); the table is sorted by
    points, then point difference, then points-for (descending) and name
    (ascending); and that order is total on arbitrary rows. -/
theorem computeStandings_spec (g : Group) (idx : PIndex)
    (hnd : g.players.Nodup)
    (hwf : ∀ m ∈ g.«matches», m.completed = true →
      m.a ∈ g.players ∧ m.b ∈ g.players ∧ m.a ≠ m.b ∧
      m.scoreA.isSome = true ∧ m.scoreB.isSome = true ∧ m.scoreA ≠ m.scoreB) :
    ((computeStandings g idx).map (fun r => r.id)).Perm g.players ∧
    (∀ r ∈ computeStandings g idx,
      r.P = specP r.id g.«matches» ∧ r.W = specW r.id g.«matches» ∧
      r.L = specL r.id g.«matches» ∧ r.PF = specPF r.id g.«matches» ∧
      r.PA = specPA r.id g.«matches» ∧ r.PD = r.PF - r.PA ∧ r.Pts = 3 * r.W) ∧
    (computeStandings g idx).Pairwise specLE ∧
    (∀ x y : Row, specLE x y ∨ specLE y x) := by
  have hwf' : ∀ m ∈ g.«matches», m.completed = true →
      m.a ≠ m.b ∧ m.scoreA.isSome = true ∧ m.scoreB.isSome = true := by
    intro m hm hc
    obtain ⟨_, _, h1, h2, h3, _⟩ := hwf m hm hc
    exact ⟨h1, h2, h3⟩
  have hfill : g.«matches».foldl (fun rows m => rows.map (stepRow m))
        (g.players.map (initRow idx)) =
      g.players.map (fun p =>
        g.«matches».foldl (fun acc m => stepRow m acc) (initRow idx p)) := by
    rw [foldl_map_stepRow, List.map_map]
    rfl
  have hmem : ∀ r ∈ computeStandings g idx, ∃ p ∈ g.players,
      r = g.«matches».foldl (fun acc m => stepRow m acc) (initRow idx p) := by
    intro r hr
    unfold computeStandings at hr
    rw [List.mem_mergeSort, hfill, List.mem_map] at hr
    obtain ⟨p, hp, hr⟩ := hr
    exact ⟨p, hp, hr.symm⟩
  refine ⟨?_, ?_, ?_, ?_⟩
  · have hperm : (computeStandings g idx).Perm
        (g.«matches».foldl (fun rows m => rows.map (stepRow m))
          (g.players.map (initRow idx))) := by
      unfold computeStandings
      exact List.mergeSort_perm _ _
    have := hperm.map (fun r => r.id)
    rw [hfill, List.map_map] at this
    have hids : (g.players.map
        ((fun r => r.id) ∘ fun p =>
          g.«matches».foldl (fun acc m => stepRow m acc) (initRow idx p))) =
        g.players := by
      have : ∀ p ∈ g.players,
          ((fun r => r.id) ∘ fun p =>
            g.«matches».foldl (fun acc m => stepRow m acc) (initRow idx p)) p = p := by
        intro p _
        exact (foldStep_spec g.«matches» (initRow idx p) hwf').1
      rw [List.map_congr_left this]
      simp
    rw [hids] at this
    exact this
  · intro r hr
    obtain ⟨p, hp, rfl⟩ := hmem r hr
    obtain ⟨hid, _, hP, hW, hL, hPF, hPA, hPts, hPD⟩ :=
      foldStep_spec g.«matches» (initRow idx p) hwf'
    rw [show (initRow idx p).id = p from rfl] at hid hP hW hL hPF hPA hPts
    rw [show (initRow idx p).P = (0 : Int) from rfl, zero_add] at hP
    rw [show (initRow idx p).W = (0 : Int) from rfl, zero_add] at hW
    rw [show (initRow idx p).L = (0 : Int) from rfl, zero_add] at hL
    rw [show (initRow idx p).PF = (0 : Int) from rfl, zero_add] at hPF
    rw [show (initRow idx p).PA = (0 : Int) from rfl, zero_add] at hPA
    rw [show (initRow idx p).Pts = (0 : Int) from rfl, zero_add] at hPts
    rw [hid]
    exact ⟨hP, hW, hL, hPF, hPA, hPD rfl, by rw [hPts, hW]⟩
  · have hs := List.sorted_mergeSort standingsLE_trans
      (fun a b => standingsLE_total a b)
      (g.«matches».foldl (fun rows m => rows.map (stepRow m))
        (g.players.map (initRow idx)))
    unfold computeStandings
    exact hs.imp (fun h => (standingsLE_iff_specLE _ _).mp h)
  · intro x y
    have := standingsLE_total x y
    rcases (by simpa using this : standingsLE x y = true ∨ standingsLE y x = true) with h | h
    · exact Or.inl ((standingsLE_iff_specLE x y).mp h)
    · exact Or.inr ((standingsLE_iff_specLE y x).mp h)

/-- Concrete group from which the standings witness is computed: A beats B
    21-10 and C beats D 21-0, the remaining matches unplayed. -/
def demoGroup : Group :=
  { name := "X", players := ["A", "B", "C", "D"],
    «matches» :=
      [ { id := 0, a := "A", b := "B", scoreA := some 21, scoreB := some 10,
          completed := true },
        { id := 1, a := "C", b := "D", scoreA := some 21, scoreB := some 0,
          completed := true } ] }

/-- Concrete players index for the standings witness. -/
def demoIdx : PIndex := fun pid =>
  if pid = "A" then some { id := "A", name := "Alfa", seed := 1 }
  else if pid = "B" then some { id := "B", name := "Bravo", seed := 2 }
  else if pid = "C" then some { id := "C", name := "Charlie", seed := 3 }
  else if pid = "D" then some { id := "D", name := "Delta", seed := 4 }
  else none

/-- Concrete witness for `computeStandings_spec` on `demoGroup`. -/
theorem computeStandings_spec_witness :
    (demoGroup.players.Nodup ∧
     (∀ m ∈ demoGroup.«matches», m.completed = true →
       m.a ∈ demoGroup.players ∧ m.b ∈ demoGroup.players ∧ m.a ≠ m.b ∧
       m.scoreA.isSome = true ∧ m.scoreB.isSome = true ∧ m.scoreA ≠ m.scoreB)) ∧
    (((computeStandings demoGroup demoIdx).map (fun r => r.id)).Perm
        demoGroup.players ∧
     (∀ r ∈ computeStandings demoGroup demoIdx,
       r.P = specP r.id demoGroup.«matches» ∧ r.W = specW r.id demoGroup.«matches» ∧
       r.L = specL r.id demoGroup.«matches» ∧ r.PF = specPF r.id demoGroup.«matches» ∧
       r.PA = specPA r.id demoGroup.«matches» ∧ r.PD = r.PF - r.PA ∧
       r.Pts = 3 * r.W) ∧
     (computeStandings demoGroup demoIdx).Pairwise specLE ∧
     (∀ x y : Row, specLE x y ∨ specLE y x)) :=
  ⟨⟨by decide, by decide⟩,
    computeStandings_spec demoGroup demoIdx (by decide) (by decide)⟩

/-- Boolean string order used for the JS default sort of group names. -/
def strLE (a b : String) : Bool := decide (a ≤ b)

/-- Winner and runner-up ids of one group: the first two rows of its
    standings table (absent when the group has fewer than 1 or 2 players). -/
def winnerRunner (g : Group) (idx : PIndex) : Option String × Option String :=
  ((computeStandings g idx)[0]?.map (fun r => r.id),
   (computeStandings g idx)[1]?.map (fun r => r.id))

/-- Lookup in the `advancers` dictionary of `buildKnockout`: the dictionary
    is written once per group in list order, so a duplicated name holds the
    last such group's entry; a name of no group (never produced by the
    caller) holds nothing. -/
def advancersOf (groups : List Group) (idx : PIndex) (gname : String) :
    Option String × Option String :=
  match (groups.filter (fun g => decide (g.name = gname))).getLast? with
  | some g => winnerRunner g idx
  | none => (none, none)

/-- Optional pairing: JS pushes the match only when both ids are present
    (`if (g1w && g2r)`); opaque uid-generated ids are never falsy strings. -/
def optPair (w r : Option String) : List (String × String) :=
  match w, r with
  | some w, some r => [(w, r)]
  | _, _ => []

/-- Participant pairs pushed by the loop of `buildKnockout`: group names are
    sorted, consumed two at a time (the loop breaks on a missing second
    name, dropping an odd last group), and each pair of groups contributes
    the optional matches winner1-runner2 then winner2-runner1. -/
def knockoutPairs (groups : List Group) (idx : PIndex) : List (String × String) :=
  let order := (groups.map (fun g => g.name)).mergeSort strLE
  (List.range (order.length / 2)).flatMap (fun k =>
    let wr1 := advancersOf groups idx (order.getD (2 * k) "")
    let wr2 := advancersOf groups idx (order.getD (2 * k + 1) "")
    optPair wr1.1 wr2.2 ++ optPair wr2.1 wr1.2)

/-- `buildKnockout(groups, playersIndex)` from App.jsx, with the fresh-id
    supply standing in for `uid()`. -/
def buildKnockout (groups : List Group) (idx : PIndex) (fresh : Nat) : List Match :=
  (List.range (knockoutPairs groups idx).length).map (fun k =>
    { id := fresh + k,
      a := ((knockoutPairs groups idx).getD k ("", "")).1,
      b := ((knockoutPairs groups idx).getD k ("", "")).2 })

/-- Participant pairs as the specification describes them: order the groups
    themselves lexicographically by name, consume them in consecutive pairs
    (an odd final group produces nothing), and for each pair (G1, G2) emit
    G1's standings winner versus G2's runner-up followed by G2's winner
    versus G1's runner-up, skipping a match whose winner or runner-up is
    undefined. -/
def specKnockoutPairs (groups : List Group) (idx : PIndex) : List (String × String) :=
  let sorted := groups.mergeSort (fun g1 g2 => strLE g1.name g2.name)
  (List.range (sorted.length / 2)).flatMap (fun k =>
    let wr1 := winnerRunner (sorted.getD (2 * k) { name := "", players := [], «matches» := [] }) idx
    let wr2 := winnerRunner (sorted.getD (2 * k + 1) { name := "", players := [], «matches» := [] }) idx
    optPair wr1.1 wr2.2 ++ optPair wr2.1 wr1.2)

/-- Transitivity of the string order. -/
theorem strLE_trans (a b c : String) : strLE a b → strLE b c → strLE a c := by
  simp only [strLE, decide_eq_true_eq]
  exact le_trans

/-- Totality of the string order. -/
theorem strLE_total (a b : String) : strLE a b || strLE b a := by
  simp only [strLE, Bool.or_eq_true, decide_eq_true_eq]
  exact le_total a b

/-- Filtering by the name of a member of a list with pairwise-distinct
    names returns exactly that member. -/
theorem filter_name_eq_of_nodup (groups : List Group)
    (hnd : (groups.map (fun g => g.name)).Nodup) (g : Group) (hg : g ∈ groups) :
    groups.filter (fun g2 => decide (g2.name = g.name)) = [g] := by
  induction groups with
  | nil => cases hg
  | cons h t ih =>
    rw [List.map_cons, List.nodup_cons] at hnd
    obtain ⟨hh, ht⟩ := hnd
    rcases List.mem_cons.mp hg with rfl | hgt
    · have : t.filter (fun g2 => decide (g2.name = g.name)) = [] := by
        rw [List.filter_eq_nil_iff]
        intro a ha
        simp only [decide_eq_true_eq]
        intro hcontra
        exact hh (hcontra ▸ List.mem_map_of_mem (fun g2 => g2.name) ha)
      simp [List.filter_cons, this]
    · have hne : ¬ h.name = g.name := by
        intro hcontra
        exact hh (hcontra ▸ List.mem_map_of_mem (fun g2 => g2.name) hgt)
      simp only [List.filter_cons, decide_eq_true_eq]
      rw [if_neg hne]
      exact ih ht hgt

/-- Sorting the names coincides with sorting the groups by name and then
    reading the names off. -/
theorem mergeSort_names_eq (groups : List Group) :
    (groups.map (fun g => g.name)).mergeSort strLE =
      (groups.mergeSort (fun g1 g2 => strLE g1.name g2.name)).map (fun g => g.name) := by
  apply List.eq_of_perm_of_sorted (r := fun a b : String => a ≤ b)
  · exact ((List.mergeSort_perm _ _).trans
      ((List.mergeSort_perm groups _).map (fun g => g.name)).symm)
  · exact (List.sorted_mergeSort strLE_trans strLE_total
      (groups.map (fun g => g.name))).imp (fun h => of_decide_eq_true h)
  · exact List.Pairwise.map (fun g => g.name)
      (fun a b h => (of_decide_eq_true h : a.name ≤ b.name))
      (List.sorted_mergeSort
        (fun (a b c : Group) => strLE_trans a.name b.name c.name)
        (fun (a b : Group) => strLE_total a.name b.name) groups)

/-- Reading an indexed name off the mapped list is reading the indexed
    group's name. -/
theorem getD_map_name (l : List Group) (i : Nat) (h : i < l.length) :
    (l.map (fun g => g.name)).getD i "" =
      (l.getD i { name := "", players := [], «matches» := [] }).name := by
  rw [List.getD_eq_getElem?_getD, List.getD_eq_getElem?_getD, List.getElem?_map,
    List.getElem?_eq_getElem h]
  rfl

/-- Claim C3: with pairwise-distinct group names, the source's knockout
    pairing routine produces exactly the pairs the specification describes
    (groups sorted by name, consumed in consecutive pairs, winner-1 versus
    runner-2 then winner-2 versus runner-1, undefined advancers skipped, an
    odd final group dropped), and the built matches carry those pairs in
    order. -/
theorem buildKnockout_spec (groups : List Group) (idx : PIndex) (fresh : Nat)
    (hnd : (groups.map (fun g => g.name)).Nodup) :
    knockoutPairs groups idx = specKnockoutPairs groups idx ∧
    (buildKnockout groups idx fresh).map (fun m => (m.a, m.b)) =
      specKnockoutPairs groups idx := by
  have hlen : ((groups.map (fun g => g.name)).mergeSort strLE).length =
      (groups.mergeSort (fun g1 g2 => strLE g1.name g2.name)).length := by
    rw [List.length_mergeSort, List.length_mergeSort, List.length_map]
  have hmain : knockoutPairs groups idx = specKnockoutPairs groups idx := by
    simp only [knockoutPairs, specKnockoutPairs]
    rw [hlen]
    rw [List.flatMap_def, List.flatMap_def]
    apply congrArg List.flatten
    apply List.map_congr_left
    intro k hk
    rw [List.mem_range] at hk
    set sorted := groups.mergeSort (fun g1 g2 => strLE g1.name g2.name) with hsorted
    have hslen : sorted.length = groups.length := by
      rw [hsorted, List.length_mergeSort]
    have h2k : 2 * k < sorted.length := by omega
    have h2k1 : 2 * k + 1 < sorted.length := by omega
    have hga : ∀ i, i < sorted.length →
        advancersOf groups idx
          (((groups.map (fun g => g.name)).mergeSort strLE).getD i "") =
        winnerRunner (sorted.getD i { name := "", players := [], «matches» := [] }) idx := by
      intro i hi
      rw [mergeSort_names_eq, ← hsorted, getD_map_name sorted i hi]
      have hmem : sorted.getD i { name := "", players := [], «matches» := [] } ∈ groups := by
        have h1 : sorted.getD i { name := "", players := [], «matches» := [] } ∈ sorted := by
          rw [List.getD_eq_getElem?_getD, List.getElem?_eq_getElem hi]
          exact List.getElem_mem hi
        have h2 : sorted.getD i { name := "", players := [], «matches» := [] } ∈
            groups.mergeSort (fun g1 g2 => strLE g1.name g2.name) := h1
        exact List.mem_mergeSort.mp h2
      unfold advancersOf
      rw [filter_name_eq_of_nodup groups hnd _ hmem]
      rfl
    rw [hga (2 * k) h2k, hga (2 * k + 1) h2k1]
  refine ⟨hmain, ?_⟩
  rw [hmain.symm]
  unfold buildKnockout
  rw [List.map_map]
  apply List.ext_getElem
  · rw [List.length_map, List.length_range]
  · intro i h1 h2
    rw [List.getElem_map, List.getElem_range]
    rw [List.length_map, List.length_range] at h1
    simp only [Function.comp]
    rw [List.getD_eq_getElem?_getD, List.getElem?_eq_getElem h1]
    rfl

/-- Two concrete groups used by the knockout-pairing witness. -/
def demoGroupB : Group :=
  { name := "Y", players := ["E", "F", "G", "H"],
    «matches» :=
      [ { id := 2, a := "E", b := "F", scoreA := some 21, scoreB := some 5,
          completed := true },
        { id := 3, a := "G", b := "H", scoreA := some 21, scoreB := some 7,
          completed := true } ] }

/-- Concrete witness for `buildKnockout_spec` on two groups. -/
theorem buildKnockout_spec_witness :
    (([demoGroup, demoGroupB].map (fun g => g.name)).Nodup) ∧
    (knockoutPairs [demoGroup, demoGroupB] demoIdx =
        specKnockoutPairs [demoGroup, demoGroupB] demoIdx ∧
     (buildKnockout [demoGroup, demoGroupB] demoIdx 10).map (fun m => (m.a, m.b)) =
        specKnockoutPairs [demoGroup, demoGroupB] demoIdx) :=
  ⟨by decide, buildKnockout_spec [demoGroup, demoGroupB] demoIdx 10 (by decide)⟩

/-- Podium result `{gold, silver, bronze}` of `getPodium`. -/
structure Podium where
  gold : String
  silver : Option String
  bronze : Option String
deriving DecidableEq, Repr

/-- `getPodium(rounds, championId)` from App.jsx.  Silver reads the first
    match of the last round; bronze reads the first two matches of the
    second-to-last round, picking the loser whose losing score is strictly
    higher (index 0 otherwise), where a missing losing score counts as -1. -/
def getPodium (rounds : List (List Match)) (championId : String) : Podium :=
  if rounds.length = 0 then { gold := championId, silver := none, bronze := none }
  else
    { gold := championId,
      silver :=
        match (rounds.getLast?.getD []).head? with
        | none => none
        | some final =>
          if final.a = championId then some final.b
          else if final.b = championId then some final.a
          else if jsGT final.scoreA final.scoreB then some final.b else some final.a,
      bronze :=
        if 2 ≤ rounds.length then
          let semis := rounds.getD (rounds.length - 2) []
          if 2 ≤ semis.length then
            let losers := semis.map (fun m => if jsGT m.scoreA m.scoreB then m.b else m.a)
            let losingScores :=
              semis.map (fun m => if jsGT m.scoreA m.scoreB then m.scoreB else m.scoreA)
            let s1 : Int := (losingScores.getD 1 none).getD (-1)
            let s0 : Int := (losingScores.getD 0 none).getD (-1)
            let idx : Nat := if s1 > s0 then 1 else 0
            losers[idx]?
          else none
        else none }

/-- Claim C6 as the code behaves (amended): gold is always the given
    champion; silver is present exactly when the last round is nonempty
    (it is read from that round's first match, however many matches the
    round has); bronze is present exactly when there are at least two
    rounds and the second-to-last holds at least two matches. -/
theorem getPodium_presence (rounds : List (List Match)) (c : String) :
    (getPodium rounds c).gold = c ∧
    ((getPodium rounds c).silver.isSome = true ↔
      rounds ≠ [] ∧ rounds.getLast?.getD [] ≠ []) ∧
    ((getPodium rounds c).bronze.isSome = true ↔
      2 ≤ rounds.length ∧ 2 ≤ (rounds.getD (rounds.length - 2) []).length) := by
  by_cases hr : rounds.length = 0
  · have hnil : rounds = [] := List.length_eq_zero.mp hr
    subst hnil
    refine ⟨rfl, ?_, ?_⟩ <;> simp [getPodium]
  · refine ⟨?_, ?_, ?_⟩
    · simp [getPodium, hr]
    · simp only [getPodium, if_neg hr]
      cases hfin : (rounds.getLast?.getD []).head? with
      | none =>
        have : rounds.getLast?.getD [] = [] := List.head?_eq_none_iff.mp hfin
        simp [this]
      | some final =>
        have hne : rounds.getLast?.getD [] ≠ [] := by
          intro hcontra
          rw [hcontra] at hfin
          cases hfin
        have hrne : rounds ≠ [] := by
          intro hcontra
          subst hcontra
          exact hr rfl
        simp only [hfin]
        constructor
        · intro _
          exact ⟨hrne, hne⟩
        · intro _
          by_cases h1 : final.a = c <;> by_cases h2 : final.b = c <;>
            by_cases h3 : jsGT final.scoreA final.scoreB <;> simp [h1, h2, h3]
    · simp only [getPodium, if_neg hr]
      by_cases h2 : 2 ≤ rounds.length
      · rw [if_pos h2]
        by_cases h3 : 2 ≤ (rounds.getD (rounds.length - 2) []).length
        · rw [if_pos h3]
          have hidx : (if (((rounds.getD (rounds.length - 2) []).map
                  (fun m => if jsGT m.scoreA m.scoreB then m.scoreB else m.scoreA)).getD 1
                    none).getD (-1) >
                (((rounds.getD (rounds.length - 2) []).map
                  (fun m => if jsGT m.scoreA m.scoreB then m.scoreB else m.scoreA)).getD 0
                    none).getD (-1)
              then (1 : Nat) else 0) <
              ((rounds.getD (rounds.length - 2) []).map
                (fun m => if jsGT m.scoreA m.scoreB then m.b else m.a)).length := by
            rw [List.length_map]
            split <;> omega
          rw [List.getElem?_eq_getElem hidx]
          simp only [Option.isSome_some, true_iff]
          exact ⟨h2, h3⟩
        · rw [if_neg h3]
          simp only [Option.isSome_none, Bool.false_eq_true, false_iff]
          intro hcontra
          exact h3 hcontra.2
      · rw [if_neg h2]
        simp only [Option.isSome_none, Bool.false_eq_true, false_iff]
        intro hcontra
        exact h2 hcontra.1

/-- Last round holding two matches, used to refute claim C6 as stated. -/
def finalTwoRounds : List (List Match) :=
  [ [ { id := 0, a := "x1", b := "x2", scoreA := some 21, scoreB := some 10,
        completed := true },
      { id := 1, a := "x3", b := "x4", scoreA := some 21, scoreB := some 8,
        completed := true } ] ]

/-- Counterexample to claim C6 as stated: the last round holds two matches,
    not exactly one, yet silver is set (from the first match) instead of
    being left null. -/
theorem getPodium_silver_counterexample :
    (getPodium finalTwoRounds "x1").silver = some "x2" ∧
    (finalTwoRounds.getLast?.getD []).length ≠ 1 := by
  constructor
  · rfl
  · decide

/-- Claim C5 as the code behaves (amended): with two completed, fully
    scored semifinal matches, bronze is the semifinal loser with the
    strictly higher losing score; when the two losing scores are equal,
    bronze is the loser of the FIRST semifinal (not the second). -/
theorem getPodium_bronze_rule (rounds : List (List Match)) (c : String)
    (m1 m2 : Match) (a1 b1 a2 b2 : Int)
    (hlen : 2 ≤ rounds.length)
    (hsemis : rounds.getD (rounds.length - 2) [] = [m1, m2])
    (hc1 : m1.completed = true) (hc2 : m2.completed = true)
    (h1a : m1.scoreA = some a1) (h1b : m1.scoreB = some b1)
    (h2a : m2.scoreA = some a2) (h2b : m2.scoreB = some b2) :
    (getPodium rounds c).bronze =
      some (if (if b1 < a1 then b1 else a1) < (if b2 < a2 then b2 else a2)
            then (if b2 < a2 then m2.b else m2.a)
            else (if b1 < a1 then m1.b else m1.a)) := by
  have hr : ¬ rounds.length = 0 := by omega
  simp only [getPodium, if_neg hr]
  rw [if_pos hlen, hsemis]
  rw [if_pos (by simp : 2 ≤ ([m1, m2] : List Match).length)]
  simp only [List.map_cons, List.map_nil, List.getD_cons_zero, List.getD_cons_succ]
  simp only [h1a, h1b, h2a, h2b, jsGT, decide_eq_true_eq]
  by_cases hw1 : b1 < a1 <;> by_cases hw2 : b2 < a2 <;>
    simp only [hw1, hw2, if_true, if_false, ite_true, ite_false, Option.getD_some] <;>
    split <;> rfl

/-- Knockout history with a tied pair of semifinal losing scores, used to
    refute the tie-break direction of claim C5. -/
def semisTieRounds : List (List Match) :=
  [ [ { id := 0, a := "A1", b := "A2", scoreA := some 21, scoreB := some 10,
        completed := true },
      { id := 1, a := "B1", b := "B2", scoreA := some 21, scoreB := some 10,
        completed := true } ],
    [ { id := 2, a := "A1", b := "B1", scoreA := some 21, scoreB := some 15,
        completed := true } ] ]

/-- Counterexample to claim C5 as stated: both semifinal losers score 10,
    and bronze goes to the first semifinal's loser A2, not to the second
    semifinal's loser B2 as the claim says. -/
theorem getPodium_bronze_tie_counterexample :
    (getPodium semisTieRounds "A1").bronze = some "A2" ∧ ("A2" : String) ≠ "B2" := by
  constructor
  · rfl
  · decide

/-- Concrete witness for `getPodium_bronze_rule` on `semisTieRounds`. -/
theorem getPodium_bronze_rule_witness :
    (2 ≤ semisTieRounds.length ∧
     semisTieRounds.getD (semisTieRounds.length - 2) [] =
       [ { id := 0, a := "A1", b := "A2", scoreA := some 21, scoreB := some 10,
           completed := true },
         { id := 1, a := "B1", b := "B2", scoreA := some 21, scoreB := some 10,
           completed := true } ]) ∧
    (getPodium semisTieRounds "A1").bronze =
      some (if (if (10 : Int) < 21 then (10 : Int) else 21) <
               (if (10 : Int) < 21 then (10 : Int) else 21)
            then (if (10 : Int) < 21 then "B2" else "B1")
            else (if (10 : Int) < 21 then "A2" else "A1")) :=
  ⟨⟨by decide, by decide⟩,
    getPodium_bronze_rule semisTieRounds "A1"
      { id := 0, a := "A1", b := "A2", scoreA := some 21, scoreB := some 10,
        completed := true }
      { id := 1, a := "B1", b := "B2", scoreA := some 21, scoreB := some 10,
        completed := true }
      21 10 21 10
      (by decide) (by decide) (by decide) (by decide) rfl rfl rfl rfl⟩

/-- Winner read off a match, `m.scoreA > m.scoreB ? m.a : m.b` with the
    exact JS comparison. -/
def winnerOf (m : Match) : String :=
  if jsGT m.scoreA m.scoreB then m.a else m.b

/-- Consecutive pairing loop `for (i = 0; i < len; i += 2)` used for new
    knockout rounds and the first single-elimination round.  For an odd list
    of three or more the JS version would emit a final match against an
    undefined opponent; this model drops that ill-formed match, and the
    round-advancement theorem below is stated for singleton or even-length
    rounds only. -/
def pairConsecutive (fresh : Nat) (ids : List String) : List Match :=
  (List.range (ids.length / 2)).map (fun k =>
    { id := fresh + k, a := ids.getD (2 * k) "", b := ids.getD (2 * k + 1) "" })

/-- Update of one match (keyed by id, marked completed) inside one round of
    the bracket, as done by the state updater of `submitKnockoutScore`. -/
def replaceInRound (rounds : List (List Match)) (i : Nat) (mw : Match) :
    List (List Match) :=
  rounds.modify (fun r => r.map (fun m =>
    if m.id = mw.id then { mw with completed := true } else m)) i

/-- Tournament state: the persisted top-level fields of the app plus the
    deterministic fresh-id supply that stands in for `uid()`. -/
structure TState where
  players : List Player
  groups : List Group
  stage : Stage
  rounds : List (List Match)
  champion : Option String
  target : Int
  nextId : Nat
deriving DecidableEq, Repr

/-- The app's `playersIndex` built from its player list;
    `Object.fromEntries` keeps the last entry of a duplicated id. -/
def mkIndex (ps : List Player) : PIndex :=
  fun pid => ps.reverse.find? (fun p => decide (p.id = pid))

/-- `updateGroupMatch(groupName, matchWithScores)` from App.jsx. -/
def updateGroupMatch (st : TState) (gname : String) (mw : Match) : TState :=
  { st with groups := st.groups.map (fun g =>
      if g.name = gname then
        { g with «matches» := g.«matches».map (fun m =>
            if m.id = mw.id then { mw with completed := true } else m) }
      else g) }

/-- `advanceToKnockout()` from App.jsx: empty pairings only alert and leave
    the state unchanged; otherwise the pairings become the sole round and
    the stage moves to knockout. -/
def advanceToKnockout (st : TState) : TState :=
  if (buildKnockout st.groups (mkIndex st.players) st.nextId).length = 0 then st
  else
    { st with
      rounds := [buildKnockout st.groups (mkIndex st.players) st.nextId],
      stage := Stage.knockout,
      nextId := st.nextId + (buildKnockout st.groups (mkIndex st.players) st.nextId).length }

/-- `submitKnockoutScore(roundIndex, matchWithScores)` from App.jsx: the
    addressed round's match is overwritten and marked completed; if that
    round is then fully complete its winners are read off, and either the
    sole winner becomes champion (stage champion) or the winners are paired
    into a round appended at the end.  An out-of-range index would crash the
    JS updater before any state commits, modelled as the identity. -/
def submitKnockoutScore (st : TState) (roundIndex : Nat) (mw : Match) : TState :=
  if roundIndex < st.rounds.length then
    if ((replaceInRound st.rounds roundIndex mw).getD roundIndex []).all
        (fun m => m.completed) then
      if (((replaceInRound st.rounds roundIndex mw).getD roundIndex []).map
          winnerOf).length = 1 then
        { st with
          rounds := replaceInRound st.rounds roundIndex mw,
          champion := (((replaceInRound st.rounds roundIndex mw).getD roundIndex []).map
            winnerOf).head?,
          stage := Stage.champion }
      else
        { st with
          rounds := replaceInRound st.rounds roundIndex mw ++
            [pairConsecutive st.nextId
              (((replaceInRound st.rounds roundIndex mw).getD roundIndex []).map winnerOf)],
          nextId := st.nextId +
            (((replaceInRound st.rounds roundIndex mw).getD roundIndex []).map
              winnerOf).length / 2 }
    else { st with rounds := replaceInRound st.rounds roundIndex mw }
  else st

/-- `isPowerOfTwo(n)` from App.jsx, `(n & (n - 1)) === 0`. -/
def isPowerOfTwo (n : Nat) : Bool := decide (Nat.land n (n - 1) = 0)

/-- `buildSingleElimFirstRound(ids)` from App.jsx; the uniform shuffle is
    modelled by receiving the already-shuffled order, every permutation of
    which the caller may supply. -/
def buildSingleElimFirstRound (fresh : Nat) (seeded : List String) : List Match :=
  pairConsecutive fresh seeded

/-- State built by `handleSetup` in single-elimination mode for a given
    shuffled player list. -/
def setupSingle (seeded : List Player) (target : Int) : TState :=
  { players := seeded, groups := [], stage := Stage.knockout,
    rounds := [buildSingleElimFirstRound 0 (seeded.map (fun p => p.id))],
    champion := none, target := target, nextId := seeded.length / 2 }

/-- State built by `handleSetup` in groups mode for a given shuffled player
    list: chunks of 4 become groups A, B, C, ... each with its round-robin
    schedule. -/
def setupGroups (seeded : List Player) (target : Int) : TState :=
  { players := seeded,
    groups := (List.range (seeded.length / 4)).map (fun i =>
      { name := (Char.ofNat (65 + i)).toString,
        players := ((seeded.map (fun p => p.id)).drop (4 * i)).take 4,
        «matches» := scheduleRoundRobin4 (6 * i)
          (((seeded.map (fun p => p.id)).drop (4 * i)).take 4) }),
    stage := Stage.groups, rounds := [], champion := none, target := target,
    nextId := 6 * (seeded.length / 4) }

/-- One user-driven engine step, with the guards the UI enforces: group
    scores are saved in the groups stage through the validator; the advance
    button is enabled only when every group match is complete; knockout
    scores are saved in the knockout stage through the validator, on a match
    of an existing round. -/
inductive Step : TState → TState → Prop where
  | groupScore (st : TState) (gname : String) (m : Match) (sa sb : Int)
      (hstage : st.stage = Stage.groups)
      (hmem : ∃ g, g ∈ st.groups ∧ g.name = gname ∧ m ∈ g.«matches»)
      (hvalid : validateCornholeScore (some sa) (some sb) st.target = none) :
      Step st (updateGroupMatch st gname
        { m with scoreA := some sa, scoreB := some sb, completed := true })
  | advance (st : TState)
      (hstage : st.stage = Stage.groups)
      (hdone : ∀ g ∈ st.groups, ∀ m ∈ g.«matches», m.completed = true) :
      Step st (advanceToKnockout st)
  | knockout (st : TState) (i : Nat) (m : Match) (sa sb : Int)
      (hstage : st.stage = Stage.knockout)
      (hmem : m ∈ st.rounds.getD i [])
      (hvalid : validateCornholeScore (some sa) (some sb) st.target = none) :
      Step st (submitKnockoutScore st i
        { m with scoreA := some sa, scoreB := some sb, completed := true })

/-- Reflexive-transitive closure of `Step`. -/
inductive Reach : TState → TState → Prop where
  | refl (st : TState) : Reach st st
  | tail {a b c : TState} (h1 : Reach a b) (h2 : Step b c) : Reach a c

/-- Player lists `handleSetup` accepts in single-elimination mode. -/
def ValidSinglePlayers (seeded : List Player) : Prop :=
  (seeded.map (fun p => p.id)).Nodup ∧ isPowerOfTwo seeded.length = true ∧
  4 ≤ seeded.length ∧ seeded.length ≤ 32

/-- Player lists `handleSetup` accepts in groups mode. -/
def ValidGroupsPlayers (seeded : List Player) : Prop :=
  (seeded.map (fun p => p.id)).Nodup ∧ seeded.length % 4 = 0 ∧
  8 ≤ seeded.length ∧ seeded.length ≤ 32

/-- Targets offered by the setup form. -/
def ValidTarget (t : Int) : Prop := t = 11 ∨ t = 21

/-- States reachable from some legitimate post-setup state by user-driven
    engine steps. -/
def ReachableState (st : TState) : Prop :=
  ∃ seeded t init,
    ValidTarget t ∧
    ((ValidSinglePlayers seeded ∧ init = setupSingle seeded t) ∨
     (ValidGroupsPlayers seeded ∧ init = setupGroups seeded t)) ∧
    Reach init st

/-- The build-prerequisite invariant of the specification, read on a state:
    if any knockout round exists every group is complete, and every round
    other than the last is fully complete (a round built under its
    prerequisite stays so, because matches are only ever overwritten as
    completed). -/
def knockoutPrereqInv (st : TState) : Bool :=
  (st.rounds.isEmpty ||
    st.groups.all (fun g => g.«matches».all (fun m => m.completed))) &&
  (List.range (st.rounds.length - 1)).all
    (fun i => (st.rounds.getD i []).all (fun m => m.completed))

/-- Four players of a concrete single-elimination tournament. -/
def demoPlayers : List Player :=
  [ { id := "p1", name := "Ann", seed := 1 },
    { id := "p2", name := "Ben", seed := 2 },
    { id := "p3", name := "Cal", seed := 3 },
    { id := "p4", name := "Dee", seed := 4 } ]

/-- The post-setup state of that tournament (identity shuffle, target 21):
    one round holding p1-p2 and p3-p4. -/
def demoInit : TState := setupSingle demoPlayers 21

/-- After saving p1 beats p2 by 21-10. -/
def demoSt1 : TState := submitKnockoutScore demoInit 0
  { id := 0, a := "p1", b := "p2", scoreA := some 21, scoreB := some 10,
    completed := true }

/-- After also saving p3 beats p4 by 21-5: round 0 is complete and round 1
    (p1 versus p3) has been appended. -/
def demoSt2 : TState := submitKnockoutScore demoSt1 0
  { id := 1, a := "p3", b := "p4", scoreA := some 21, scoreB := some 5,
    completed := true }

/-- After re-saving the first match of round 0 as 21-7 while round 1 is
    still unplayed: the code rebuilds round 0's successor and appends it as
    a third round. -/
def demoSt3 : TState := submitKnockoutScore demoSt2 0
  { id := 0, a := "p1", b := "p2", scoreA := some 21, scoreB := some 7,
    completed := true }

/-- Claim C7 fails on the code: a reachable state (single-elimination, four
    players, both opening matches saved, then the first one legally re-saved)
    holds three knockout rounds whose middle round is incomplete, so the
    third round was built while every match of the previous round was not
    complete. -/
theorem knockoutPrereqInv_violated :
    ReachableState demoSt3 ∧
    demoSt3.rounds.length = 3 ∧
    knockoutPrereqInv demoSt3 = false := by
  refine ⟨⟨demoPlayers, 21, demoInit, Or.inr rfl,
    Or.inl ⟨⟨by decide, by decide, by decide, by decide⟩, rfl⟩, ?_⟩,
    by decide, by decide⟩
  have s1 : Step demoInit demoSt1 :=
    Step.knockout demoInit 0 { id := 0, a := "p1", b := "p2" } 21 10
      (by decide) (by decide) (by decide)
  have s2 : Step demoSt1 demoSt2 :=
    Step.knockout demoSt1 0 { id := 1, a := "p3", b := "p4" } 21 5
      (by decide) (by decide) (by decide)
  have s3 : Step demoSt2 demoSt3 :=
    Step.knockout demoSt2 0
      { id := 0, a := "p1", b := "p2", scoreA := some 21, scoreB := some 10,
        completed := true } 21 7
      (by decide) (by decide) (by decide)
  exact Reach.tail (Reach.tail (Reach.tail (Reach.refl demoInit) s1) s2) s3

/-- Claim C9 fails on the code: from a reachable state whose bracket has
    already advanced past round 0 (two rounds exist), one legal re-submission
    to round 0 re-derives that round's successor and appends it as a
    duplicate third round, while round 1 remains incomplete. -/
theorem knockout_round_rederived :
    ReachableState demoSt2 ∧
    demoSt2.rounds.length = 2 ∧
    Step demoSt2 demoSt3 ∧
    demoSt3.rounds.length = 3 ∧
    (demoSt3.rounds.getD 2 []).map (fun m => (m.a, m.b)) =
      (demoSt3.rounds.getD 1 []).map (fun m => (m.a, m.b)) ∧
    (demoSt3.rounds.getD 1 []).all (fun m => m.completed) = false := by
  refine ⟨⟨demoPlayers, 21, demoInit, Or.inr rfl,
    Or.inl ⟨⟨by decide, by decide, by decide, by decide⟩, rfl⟩, ?_⟩,
    by decide, ?_, by decide, by decide, by decide⟩
  · have s1 : Step demoInit demoSt1 :=
      Step.knockout demoInit 0 { id := 0, a := "p1", b := "p2" } 21 10
        (by decide) (by decide) (by decide)
    have s2 : Step demoSt1 demoSt2 :=
      Step.knockout demoSt1 0 { id := 1, a := "p3", b := "p4" } 21 5
        (by decide) (by decide) (by decide)
    exact Reach.tail (Reach.tail (Reach.refl demoInit) s1) s2
  · exact Step.knockout demoSt2 0
      { id := 0, a := "p1", b := "p2", scoreA := some 21, scoreB := some 10,
        completed := true } 21 7
      (by decide) (by decide) (by decide)

/-- Reading an indexed winner off the mapped winner list is the winner of
    the indexed match. -/
theorem getD_map_winnerOf (r : List Match) (j : Nat) (h : j < r.length) :
    (r.map winnerOf).getD j "" = winnerOf (r.getD j default) := by
  rw [List.getD_eq_getElem?_getD, List.getD_eq_getElem?_getD, List.getElem?_map,
    List.getElem?_eq_getElem h]
  rfl

/-- Claim C2: submitting a score that completes a knockout round reads the
    winners off as each match's higher scorer, in match order; a sole winner
    becomes the champion and the stage becomes champion with no round
    appended; otherwise exactly one new round is appended whose k-th match
    pairs winners 2k and 2k+1, fresh with no scores and not completed, and
    stage and champion are untouched.  The parity hypothesis marks the
    domain on which the consecutive-pairing model matches the JS loop. -/
theorem submitKnockoutScore_advances (st : TState) (i : Nat) (mw : Match)
    (hlen : i < st.rounds.length)
    (hcomp : ((replaceInRound st.rounds i mw).getD i []).all
      (fun m => m.completed) = true)
    (hsz : ((replaceInRound st.rounds i mw).getD i []).length = 1 ∨
           ((replaceInRound st.rounds i mw).getD i []).length % 2 = 0) :
    (∀ m : Match, ∀ x y : Int, m.scoreA = some x → m.scoreB = some y →
      (y < x → winnerOf m = m.a) ∧ (x < y → winnerOf m = m.b)) ∧
    (((replaceInRound st.rounds i mw).getD i []).length = 1 →
      (submitKnockoutScore st i mw).champion =
        (((replaceInRound st.rounds i mw).getD i []).map winnerOf).head? ∧
      (submitKnockoutScore st i mw).stage = Stage.champion ∧
      (submitKnockoutScore st i mw).rounds = replaceInRound st.rounds i mw) ∧
    (((replaceInRound st.rounds i mw).getD i []).length ≠ 1 →
      (submitKnockoutScore st i mw).rounds =
        replaceInRound st.rounds i mw ++
          [pairConsecutive st.nextId
            (((replaceInRound st.rounds i mw).getD i []).map winnerOf)] ∧
      (submitKnockoutScore st i mw).stage = st.stage ∧
      (submitKnockoutScore st i mw).champion = st.champion ∧
      (pairConsecutive st.nextId
        (((replaceInRound st.rounds i mw).getD i []).map winnerOf)).length =
        ((replaceInRound st.rounds i mw).getD i []).length / 2 ∧
      (∀ k : Nat, 2 * k + 1 < ((replaceInRound st.rounds i mw).getD i []).length →
        (pairConsecutive st.nextId
          (((replaceInRound st.rounds i mw).getD i []).map winnerOf))[k]? =
          some { id := st.nextId + k,
                 a := winnerOf (((replaceInRound st.rounds i mw).getD i []).getD
                   (2 * k) default),
                 b := winnerOf (((replaceInRound st.rounds i mw).getD i []).getD
                   (2 * k + 1) default),
                 scoreA := none, scoreB := none, completed := false })) := by
  refine ⟨?_, ?_, ?_⟩
  · intro m x y hx hy
    constructor
    · intro h
      simp [winnerOf, jsGT, hx, hy, h]
    · intro h
      have hnot : ¬ y < x := by omega
      simp [winnerOf, jsGT, hx, hy, hnot]
  · intro h1
    have hmaplen : (((replaceInRound st.rounds i mw).getD i []).map winnerOf).length = 1 := by
      rw [List.length_map]; exact h1
    simp only [submitKnockoutScore, if_pos hlen, if_pos hcomp, if_pos hmaplen]
    exact ⟨by trivial, by trivial, by trivial⟩
  · intro h1
    have hmaplen : ¬ (((replaceInRound st.rounds i mw).getD i []).map winnerOf).length = 1 := by
      rw [List.length_map]; exact h1
    simp only [submitKnockoutScore, if_pos hlen, if_pos hcomp, if_neg hmaplen]
    refine ⟨by trivial, by trivial, by trivial, ?_, ?_⟩
    · simp [pairConsecutive]
    · intro k hk
      have hk2 : k < ((((replaceInRound st.rounds i mw).getD i []).map winnerOf).length) / 2 := by
        rw [List.length_map]; omega
      simp only [pairConsecutive, List.getElem?_map, List.getElem?_range hk2,
        Option.map_some']
      rw [getD_map_winnerOf _ _ (by omega), getD_map_winnerOf _ _ (by omega)]

/-- Completed final-round state for the round-advancement witness. -/
def champState : TState :=
  { players := [], groups := [], stage := Stage.knockout,
    rounds := [[ { id := 0, a := "x", b := "y", scoreA := some 21,
                   scoreB := some 10, completed := true } ]],
    champion := none, target := 21, nextId := 1 }

/-- The final match re-submitted in the round-advancement witness. -/
def champMatch : Match :=
  { id := 0, a := "x", b := "y", scoreA := some 21, scoreB := some 10,
    completed := true }

/-- Concrete witness for `submitKnockoutScore_advances` on `champState`. -/
theorem submitKnockoutScore_advances_witness :
    (0 < champState.rounds.length ∧
     ((replaceInRound champState.rounds 0 champMatch).getD 0 []).all
       (fun m => m.completed) = true ∧
     (((replaceInRound champState.rounds 0 champMatch).getD 0 []).length = 1 ∨
      ((replaceInRound champState.rounds 0 champMatch).getD 0 []).length % 2 = 0)) ∧
    ((∀ m : Match, ∀ x y : Int, m.scoreA = some x → m.scoreB = some y →
      (y < x → winnerOf m = m.a) ∧ (x < y → winnerOf m = m.b)) ∧
    (((replaceInRound champState.rounds 0 champMatch).getD 0 []).length = 1 →
      (submitKnockoutScore champState 0 champMatch).champion =
        (((replaceInRound champState.rounds 0 champMatch).getD 0 []).map
          winnerOf).head? ∧
      (submitKnockoutScore champState 0 champMatch).stage = Stage.champion ∧
      (submitKnockoutScore champState 0 champMatch).rounds =
        replaceInRound champState.rounds 0 champMatch) ∧
    (((replaceInRound champState.rounds 0 champMatch).getD 0 []).length ≠ 1 →
      (submitKnockoutScore champState 0 champMatch).rounds =
        replaceInRound champState.rounds 0 champMatch ++
          [pairConsecutive champState.nextId
            (((replaceInRound champState.rounds 0 champMatch).getD 0 []).map
              winnerOf)] ∧
      (submitKnockoutScore champState 0 champMatch).stage = champState.stage ∧
      (submitKnockoutScore champState 0 champMatch).champion =
        champState.champion ∧
      (pairConsecutive champState.nextId
        (((replaceInRound champState.rounds 0 champMatch).getD 0 []).map
          winnerOf)).length =
        ((replaceInRound champState.rounds 0 champMatch).getD 0 []).length / 2 ∧
      (∀ k : Nat,
        2 * k + 1 < ((replaceInRound champState.rounds 0 champMatch).getD 0 []).length →
        (pairConsecutive champState.nextId
          (((replaceInRound champState.rounds 0 champMatch).getD 0 []).map
            winnerOf))[k]? =
          some { id := champState.nextId + k,
                 a := winnerOf (((replaceInRound champState.rounds 0 champMatch).getD 0
                   []).getD (2 * k) default),
                 b := winnerOf (((replaceInRound champState.rounds 0 champMatch).getD 0
                   []).getD (2 * k + 1) default),
                 scoreA := none, scoreB := none, completed := false }))) :=
  ⟨⟨by decide, by decide, by decide⟩,
    submitKnockoutScore_advances champState 0 champMatch
      (by decide) (by decide) (by decide)⟩

end Cornhole
